import Mathlib

/-!
Raytrace engine of the model viewer: embedding and verification.

Shallow embedding of `src/src/main.cpp` (`multiply`, `modelToTriangles`,
`transformations`, `rt`, `raytrace`, the screenshot branch of `keyCallback`)
and of `model::boundingBox` from `src/src/model.hpp`.

Modelling conventions

* `float` values are idealised as rationals `ℚ`; every concrete input used
  below is a small integer or half-integer, exactly representable in `float`,
  on which the float operations involved are exact.
* The `std::atomic<int>` counters are 32-bit two's complement integers
  (`CInt`): every `++` wraps from 2147483647 to -2147483648.
* Viewport sizes, row numbers and byte offsets are natural numbers: they are
  non-negative and bounded by the size of the buffer `raytrace` allocates.
* The pixel buffer is a function from byte offset to byte value, so a write
  past the end of the array would be visible as a change at that offset.
* Reading a `std::vector` out of bounds is undefined behaviour; it is the
  `none` result of the functions below.
* The worker threads of `raytrace` write disjoint bytes and only add to
  atomic counters, so the state after all joins is the state reached by
  running the workers one after the other, in spawn order.
* `Ray::createRay`, `intersectAABB` and `intersectTriangle` live in headers
  that are not part of the sources at hand; they are parameters (`World`).
-/

namespace RT

/-! ## glm vectors and matrices -/

/-- Type `glm::vec2`. -/
structure Vec2 where
  x : ℚ
  y : ℚ
deriving DecidableEq

/-- Type `glm::vec3`. -/
structure Vec3 where
  x : ℚ
  y : ℚ
  z : ℚ
deriving DecidableEq

/-- Type `glm::vec4`. -/
structure Vec4 where
  x : ℚ
  y : ℚ
  z : ℚ
  w : ℚ
deriving DecidableEq

/-- Type `glm::mat4`, column-major: `c0 .. c3` are `m[0] .. m[3]`. -/
structure Mat4 where
  c0 : Vec4
  c1 : Vec4
  c2 : Vec4
  c3 : Vec4
deriving DecidableEq

/-- Componentwise sum of two `vec4`. -/
def Vec4.add (a b : Vec4) : Vec4 :=
  ⟨a.x + b.x, a.y + b.y, a.z + b.z, a.w + b.w⟩

/-- Product `vec4 * scalar`. -/
def Vec4.scale (a : Vec4) (k : ℚ) : Vec4 :=
  ⟨a.x * k, a.y * k, a.z * k, a.w * k⟩

/-- Constructor `Mat4(1.0f)`: the identity matrix. -/
def Mat4.one : Mat4 :=
  ⟨⟨1, 0, 0, 0⟩, ⟨0, 1, 0, 0⟩, ⟨0, 0, 1, 0⟩, ⟨0, 0, 0, 1⟩⟩

/-- Product `mat4 * vec4`: `m[0]*v.x + m[1]*v.y + m[2]*v.z + m[3]*v.w`. -/
def Mat4.mulVec (m : Mat4) (v : Vec4) : Vec4 :=
  ((m.c0.scale v.x).add (m.c1.scale v.y)).add ((m.c2.scale v.z).add (m.c3.scale v.w))

/-- Function `glm::translate(m, v)`: the result is `m` with
`m[3]` replaced by `m[0]*v[0] + m[1]*v[1] + m[2]*v[2] + m[3]`. -/
def translate (m : Mat4) (v : Vec3) : Mat4 :=
  { m with c3 := (((m.c0.scale v.x).add (m.c1.scale v.y)).add (m.c2.scale v.z)).add m.c3 }

/-- Function `glm::rotate(m, angle, v)`, given `c = cos(angle)`, `s = sin(angle)`
and `axis = normalize(v)`. -/
def rotate (m : Mat4) (c s : ℚ) (axis : Vec3) : Mat4 :=
  let tx := (1 - c) * axis.x
  let ty := (1 - c) * axis.y
  let tz := (1 - c) * axis.z
  let r00 := c + tx * axis.x
  let r01 := tx * axis.y + s * axis.z
  let r02 := tx * axis.z - s * axis.y
  let r10 := ty * axis.x - s * axis.z
  let r11 := c + ty * axis.y
  let r12 := ty * axis.z + s * axis.x
  let r20 := tz * axis.x + s * axis.y
  let r21 := tz * axis.y - s * axis.x
  let r22 := c + tz * axis.z
  { c0 := ((m.c0.scale r00).add (m.c1.scale r01)).add (m.c2.scale r02)
    c1 := ((m.c0.scale r10).add (m.c1.scale r11)).add (m.c2.scale r12)
    c2 := ((m.c0.scale r20).add (m.c1.scale r21)).add (m.c2.scale r22)
    c3 := m.c3 }

/-- Function `multiply` of main.cpp: `Vec3(mat * Vec4(v, 1.0f))`. -/
def multiply (mat : Mat4) (v : Vec3) : Vec3 :=
  let r := mat.mulVec ⟨v.x, v.y, v.z, 1⟩
  ⟨r.x, r.y, r.z⟩

/-! ## The model as main.cpp sees it -/

/-- Bounding box with the accessors `getMin()` and `getMax()`. -/
structure Bounding where
  getMin : Vec3
  getMax : Vec3
deriving DecidableEq

/-- Mesh as used by main.cpp: positions, normals, texture coordinates, the
index sequence and the mesh bounding box. -/
structure Mesh where
  positions : List Vec3
  normals : List Vec3
  texcoords : List Vec2
  indices : List Nat
  bounding : Bounding
deriving DecidableEq

/-- Model as used by main.cpp. -/
structure Model where
  meshes : List Mesh
  bounding : Bounding
deriving DecidableEq

/-- One corner of a `Triangle`: position, normal, texture coordinate. -/
structure Vertex where
  position : Vec3
  normal : Vec3
  texcoord : Vec2
deriving DecidableEq

/-- Triangle produced by `modelToTriangles`. -/
structure Triangle where
  v1 : Vertex
  v2 : Vertex
  v3 : Vertex
deriving DecidableEq

/-- Function `transformations()` of main.cpp, over the globals `m->bounding`
and `zOffset`. The rotation is by the angle `0.0f` (cosine 1, sine 0) about the
unit vector (0, 1, 0). -/
def transformations (bounding : Bounding) (zOffset : ℚ) : Mat4 :=
  let model := Mat4.one
  let model := translate model
    ⟨-(bounding.getMax.x + bounding.getMin.x) / 2,
     -(bounding.getMax.y + bounding.getMin.z) / 2,
     -(bounding.getMax.y + bounding.getMin.z) / 2 - 3 - zOffset⟩
  let model := rotate model 1 0 ⟨0, 1, 0⟩
  model

/-! ## model.hpp: the bounding box of a loaded model -/

/-- Struct `vertex` of model.hpp. -/
structure vertex where
  position : Vec3
  normals : Vec3
  tex : Vec2
deriving DecidableEq

/-- Class `mesh` of model.hpp, reduced to the fields `boundingBox` reads. -/
structure mesh where
  vertices : List vertex
  indices : List Nat
deriving DecidableEq

/-- Struct `box` of model.hpp. -/
structure box where
  min : Vec3
  max : Vec3
deriving DecidableEq

/-- Class `model` of model.hpp, reduced to its meshes. -/
structure model where
  meshes : List mesh
deriving DecidableEq

/-- Body of the inner loop of `model::boundingBox` for one vertex. -/
def boundingBoxStep (acc : box) (v : vertex) : box :=
  { min := ⟨Min.min acc.min.x v.position.x, Min.min acc.min.y v.position.y,
            Min.min acc.min.z v.position.z⟩
    max := ⟨Max.max acc.max.x v.position.x, Max.max acc.max.y v.position.y,
            Max.max acc.max.z v.position.z⟩ }

/-- Method `model::boundingBox` of model.hpp. -/
def model.boundingBox (self : model) : box :=
  let minimum : Vec3 := ⟨100000, 100000, 100000⟩
  let maximum : Vec3 := ⟨-100000, -100000, -100000⟩
  self.meshes.foldl (fun acc m => m.vertices.foldl boundingBoxStep acc) ⟨minimum, maximum⟩

/-! ## main.cpp: flattening a model into triangles -/

/-- One pass of the loop body of `modelToTriangles(model, transformation)`:
the three corners named by `indices[i]`, `indices[i+1]`, `indices[i+2]`.
A corner reads `positions`, `normals` and `texcoords` at the same index. -/
def corner (transformation : Mat4) (mesh : Mesh) (idx : Nat) : Option Vertex :=
  match mesh.positions[idx]?, mesh.normals[idx]?, mesh.texcoords[idx]? with
  | some p, some n, some t => some ⟨multiply transformation p, n, t⟩
  | _, _, _ => none

/-- Inner loop of `modelToTriangles(model, transformation)` over the index
sequence of one mesh, three indices per pass. -/
def meshToTriangles (transformation : Mat4) (mesh : Mesh) : List Nat → Option (List Triangle)
  | [] => some []
  | i1 :: i2 :: i3 :: rest =>
    match corner transformation mesh i1, corner transformation mesh i2,
        corner transformation mesh i3 with
    | some v1, some v2, some v3 =>
      match meshToTriangles transformation mesh rest with
      | some ts => some (⟨v1, v2, v3⟩ :: ts)
      | none => none
    | _, _, _ => none
  | _ => none

/-- Outer loop of `modelToTriangles(model, transformation)` over the meshes. -/
def meshesToTriangles (transformation : Mat4) : List Mesh → Option (List Triangle)
  | [] => some []
  | mesh :: rest =>
    match meshToTriangles transformation mesh mesh.indices with
    | none => none
    | some ts =>
      match meshesToTriangles transformation rest with
      | none => none
      | some us => some (ts ++ us)

/-- Function `modelToTriangles(Model*, Mat4)` of main.cpp. -/
def modelToTriangles (model : Model) (transformation : Mat4) : Option (List Triangle) :=
  meshesToTriangles transformation model.meshes

/-- Position triple of a triangle. -/
def Triangle.positions (t : Triangle) : Vec3 × Vec3 × Vec3 :=
  (t.v1.position, t.v2.position, t.v3.position)

/-! ## main.cpp: the raytrace engine -/

/-- The `int` that holds the arithmetic result `n`: reduction to 32 bits, two's
complement. -/
def wrapInt (n : Int) : Int :=
  (n + 2147483648) % 4294967296 - 2147483648

/-- An object of type `int`: an integer from -2147483648 to 2147483647. -/
structure CInt where
  val : Int
  inRange : wrapInt val = val
deriving DecidableEq

/-- Conversion of an arithmetic result to `int`. -/
def CInt.wrap (n : Int) : CInt :=
  ⟨wrapInt n, by unfold wrapInt; omega⟩

/-- The `int` 0. -/
def CInt.zero : CInt := CInt.wrap 0

/-- Operator `++` of `std::atomic<int>`. -/
def CInt.incr (c : CInt) : CInt := CInt.wrap (c.val + 1)

/-- Class `RaytraceStatistics`: the three shared counters, each a
`std::atomic<int>`, all zero after construction. -/
structure RaytraceStatistics where
  tests : CInt
  intersections : CInt
  rays : CInt
deriving DecidableEq

/-- The globals and external functions `rt` and `raytrace` read: the window
size and aspect, the camera, `zOffset`, the global model `m` behind
`transformations()`, and the functions of ray.hpp and intersection.hpp. -/
structure World (Camera Ray : Type) where
  width : Nat
  height : Nat
  aspect : ℚ
  camera : Camera
  zOffset : ℚ
  m : Model
  createRay : Camera → Nat → Nat → Nat → Nat → ℚ → Ray
  intersectAABB : Ray → Vec3 → Vec3 → Bool
  intersectTriangle : Ray → Vec3 → Vec3 → Vec3 → Bool

/-- What a worker shares with the others: the pixel buffer `data` and the
statistics. -/
structure Shared where
  data : Nat → Nat
  stats : RaytraceStatistics

variable {Camera Ray : Type}

/-- The triangle loop of `rt` over `mesh.positions` (lines 197 to 218), three
positions per pass. The result is the statistics and `depth`, where `none` is
`INFINITY`; running off the end of `positions` is the outer `none`. -/
def scanMesh (W : World Camera Ray) (ray : Ray) (modelMatrix : Mat4) :
    List Vec3 → RaytraceStatistics → Option (RaytraceStatistics × Option ℚ)
  | [], stats => some (stats, none)
  | p1 :: p2 :: p3 :: rest, stats =>
    let v1 := multiply modelMatrix p1
    let v2 := multiply modelMatrix p2
    let v3 := multiply modelMatrix p3
    let stats := { stats with tests := stats.tests.incr }
    if !W.intersectTriangle ray v1 v2 v3 then
      scanMesh W ray modelMatrix rest stats
    else
      some ({ stats with intersections := stats.intersections.incr }, some 1)
  | _, _ => none

/-- The mesh loop of `rt` (lines 191 to 220); a hit leaves both loops. -/
def scanMeshes (W : World Camera Ray) (ray : Ray) (modelMatrix : Mat4) :
    List Mesh → RaytraceStatistics → Option (RaytraceStatistics × Option ℚ)
  | [], stats => some (stats, none)
  | mesh :: rest, stats =>
    if !W.intersectAABB ray (multiply modelMatrix mesh.bounding.getMin)
        (multiply modelMatrix mesh.bounding.getMax) then
      scanMeshes W ray modelMatrix rest stats
    else
      match scanMesh W ray modelMatrix mesh.positions stats with
      | none => none
      | some (stats, some depth) => some (stats, some depth)
      | some (stats, none) => scanMeshes W ray modelMatrix rest stats

/-- The three stores of lines 223 to 225 at byte offset `base`. -/
def writeHit (data : Nat → Nat) (base : Nat) : Nat → Nat :=
  fun j => if j = base + 2 then 0 else if j = base + 1 then 0 else if j = base + 0 then 255
    else data j

/-- Body of the pixel loop of `rt` (lines 182 to 226) for the pixel `(x, y)`. -/
def pixel (W : World Camera Ray) (model : Model) (modelMatrix : Mat4) (w x y : Nat)
    (s : Shared) : Option Shared :=
  let ray := W.createRay W.camera x y w W.height W.aspect
  let stats := { s.stats with rays := s.stats.rays.incr }
  if !W.intersectAABB ray (multiply modelMatrix model.bounding.getMin)
      (multiply modelMatrix model.bounding.getMax) then
    some { s with stats := stats }
  else
    match scanMeshes W ray modelMatrix model.meshes stats with
    | none => none
    | some (stats, depth) =>
      if depth.isSome then
        some { data := writeHit s.data ((x + y * w) * 3), stats := stats }
      else
        some { data := s.data, stats := stats }

/-- A counting loop `for (i = start; i < start + count; i++) body(i)` whose body
may fail. -/
def forLoop {σ : Type} (body : Nat → σ → Option σ) : Nat → Nat → σ → Option σ
  | _, 0, s => some s
  | start, count + 1, s =>
    match body start s with
    | none => none
    | some s => forLoop body (start + 1) count s

/-- Function `rt(model, data, h, n, stats)` of main.cpp: rows `h <= y < n`,
columns `0 <= x < w`. -/
def rt (W : World Camera Ray) (model : Model) (h n : Nat) (s : Shared) : Option Shared :=
  let w := W.width
  let modelMatrix := transformations W.m.bounding W.zOffset
  forLoop (fun y s => forLoop (fun x s => pixel W model modelMatrix w x y s) 0 w s) h (n - h) s

/-- What `raytrace` has when the workers have joined: the buffer it passes to
`lodepng::encode`, the statistics it prints, and the row ranges of the
threads it pushed into `threads`. -/
structure Raytraced where
  data : Nat → Nat
  stats : RaytraceStatistics
  threads : List (Nat × Nat)

/-- Body of the spawning loop of `raytrace` (lines 244 to 249) for worker `i`,
followed by the run of that worker. -/
def spawn (W : World Camera Ray) (model : Model) (h q i : Nat) (r : Raytraced) :
    Option Raytraced :=
  let rowFrom := h / q * i
  let rowTo := rowFrom + h / q
  match rt W model rowFrom rowTo ⟨r.data, r.stats⟩ with
  | none => none
  | some s => some { data := s.data, stats := s.stats, threads := r.threads ++ [(rowFrom, rowTo)] }

/-- Function `raytrace(model)` of main.cpp up to the call of the encoder, with
`q` the value of `std::thread::hardware_concurrency()`. The buffer starts as
all zero and is passed to the encoder as the workers left it. -/
def raytrace (W : World Camera Ray) (model : Model) (q : Nat) : Option Raytraced :=
  let h := W.height
  forLoop (spawn W model h q) 0 q
    { data := fun _ => 0, stats := ⟨CInt.zero, CInt.zero, CInt.zero⟩, threads := [] }

/-! ## main.cpp: the screenshot branch of keyCallback -/

/-- Function `std::swap_ranges(first1, last1, first2)` on a byte buffer, with
`count = last1 - first1`: swaps element `first1 + k` with `first2 + k` for
`k = 0 .. count - 1`, in that order. -/
def swapRanges (pixels : Nat → Nat) (first1 first2 : Nat) : Nat → Nat → Nat
  | 0 => pixels
  | count + 1 =>
    let p := swapRanges pixels first1 first2 count
    fun j =>
      if j = first1 + count then p (first2 + count)
      else if j = first2 + count then p (first1 + count)
      else p j

/-- The row-swapping loop of the `GLFW_KEY_Q` branch of `keyCallback` (lines 132
to 134) after `iterations` passes, on a buffer of `width * height * 4` bytes. -/
def flipRows (width height : Nat) (pixels : Nat → Nat) : Nat → Nat → Nat
  | 0 => pixels
  | iterations + 1 =>
    let i := iterations
    swapRanges (flipRows width height pixels iterations) (width * i * 4)
      ((height - 1 - i) * width * 4) (width * (i + 1) * 4 - width * i * 4)

/-- The buffer the `GLFW_KEY_Q` branch of `keyCallback` passes to the encoder:
the loop runs for `i = 0 .. height / 2 - 1`. -/
def screenshot (width height : Nat) (pixels : Nat → Nat) : Nat → Nat :=
  flipRows width height pixels (height / 2)

/-! ## Specification vocabulary -/

/-- Call `intersectTriangle(ray, v1, v2, v3, intersection)` on a position triple. -/
def intersectTriple (W : World Camera Ray) (ray : Ray) (t : Vec3 × Vec3 × Vec3) : Bool :=
  W.intersectTriangle ray t.1 t.2.1 t.2.2

/-- The consecutive position triples of a position sequence, transformed by
`modelMatrix`: positions 0 1 2, then 3 4 5, and so on. -/
def triples (modelMatrix : Mat4) : List Vec3 → List (Vec3 × Vec3 × Vec3)
  | p1 :: p2 :: p3 :: rest =>
    (multiply modelMatrix p1, multiply modelMatrix p2, multiply modelMatrix p3) ::
      triples modelMatrix rest
  | _ => []

/-- The test `intersectAABB` of `rt` on the transformed bounding box of a mesh. -/
def meshHit (W : World Camera Ray) (ray : Ray) (modelMatrix : Mat4) (mesh : Mesh) : Bool :=
  W.intersectAABB ray (multiply modelMatrix mesh.bounding.getMin)
    (multiply modelMatrix mesh.bounding.getMax)

/-- The sequence T of the first-hit property: the concatenation, in mesh order,
of the consecutive position triples of every mesh whose transformed bounding
box the ray hits. -/
def tested (W : World Camera Ray) (ray : Ray) (modelMatrix : Mat4) (meshes : List Mesh) :
    List (Vec3 × Vec3 × Vec3) :=
  (meshes.filter (meshHit W ray modelMatrix)).flatMap
    (fun mesh => triples modelMatrix mesh.positions)

/-- The triples the loops of `rt` can reach on one ray: the concatenation, in
mesh order, of the consecutive whole position triples of the meshes whose
transformed bounding box the ray hits, up to and including the first such mesh
whose number of positions is not a multiple of 3. When there is no such mesh this
is `tested`. -/
def reached (W : World Camera Ray) (ray : Ray) (modelMatrix : Mat4) :
    List Mesh → List (Vec3 × Vec3 × Vec3)
  | [] => []
  | mesh :: rest =>
    if meshHit W ray modelMatrix mesh = true then
      if mesh.positions.length % 3 = 0 then
        triples modelMatrix mesh.positions ++ reached W ray modelMatrix rest
      else triples modelMatrix mesh.positions
    else reached W ray modelMatrix rest

/-- The ray of pixel `(x, y)` as `rt` creates it. -/
def pixelRay (W : World Camera Ray) (x y : Nat) : Ray :=
  W.createRay W.camera x y W.width W.height W.aspect

/-- The model matrix `rt` computes once per worker. -/
def modelMatrix (W : World Camera Ray) : Mat4 :=
  transformations W.m.bounding W.zOffset

/-! ## Concrete scenes -/

/-- The box from the origin to (1, 1, 1). -/
def unitBox : Bounding := ⟨⟨0, 0, 0⟩, ⟨1, 1, 1⟩⟩

/-- A mesh of one triangle with corners (0,0,0), (1,0,0), (0,1,0). -/
def triangleMesh : Mesh :=
  { positions := [⟨0, 0, 0⟩, ⟨1, 0, 0⟩, ⟨0, 1, 0⟩]
    normals := [⟨0, 0, 1⟩, ⟨0, 0, 1⟩, ⟨0, 0, 1⟩]
    texcoords := [⟨0, 0⟩, ⟨1, 0⟩, ⟨0, 1⟩]
    indices := [0, 1, 2]
    bounding := unitBox }

/-- A model of one triangle. -/
def triangleModel : Model := ⟨[triangleMesh], unitBox⟩

/-- A model without meshes; its box is what `boundingBox` leaves when there is
no vertex. -/
def emptyModel : Model :=
  ⟨[], ⟨⟨100000, 100000, 100000⟩, ⟨-100000, -100000, -100000⟩⟩⟩

/-- A scene for concrete runs on a `w` by `h` viewport: the ray of a pixel is the
pair of its coordinates, every bounding box is hit, and a triangle is hit by the
rays of image row 0 only. -/
def rowWorld (w h : Nat) : World Unit (Nat × Nat) :=
  { width := w
    height := h
    aspect := 1
    camera := ()
    zOffset := 10
    m := triangleModel
    createRay := fun _ x y _ _ _ => (x, y)
    intersectAABB := fun _ _ _ => true
    intersectTriangle := fun r _ _ _ => decide (r.2 = 0) }

/-- A scene whose rays all miss every bounding box. -/
def missWorld (w h : Nat) : World Unit (Nat × Nat) :=
  { rowWorld w h with intersectAABB := fun _ _ _ => false }

/-- The largest `int`, 2147483647. -/
def CInt.largest : CInt := CInt.wrap 2147483647

/-- The buffer and counters of a run in which the tests counter has reached the
largest `int`. -/
def saturated : Shared := ⟨fun _ => 0, ⟨CInt.largest, CInt.zero, CInt.zero⟩⟩

/-- The buffer and counters as `raytrace` initialises them. -/
def initial : Shared := ⟨fun _ => 0, ⟨CInt.zero, CInt.zero, CInt.zero⟩⟩

/-- First argument of `lodepng::encode` in `raytrace` (line 265): the array
`data` itself, as the workers left it. -/
def Raytraced.encoded (r : Raytraced) : Nat → Nat := r.data

/-- Centre of a bounding box, `(min + max) / 2`. -/
def Bounding.centre (b : Bounding) : Vec3 :=
  ⟨(b.getMin.x + b.getMax.x) / 2, (b.getMin.y + b.getMax.y) / 2, (b.getMin.z + b.getMax.z) / 2⟩

/-- The box of the cube of side 2 centred at (0, 2, 0). -/
def raisedCube : Bounding := ⟨⟨-1, 1, -1⟩, ⟨1, 3, 1⟩⟩

/-- A unit square as an indexed mesh: four positions, two triangles that share
the diagonal from corner 0 to corner 2. -/
def quadMesh : Mesh :=
  { positions := [⟨0, 0, 0⟩, ⟨1, 0, 0⟩, ⟨1, 1, 0⟩, ⟨0, 1, 0⟩]
    normals := [⟨0, 0, 1⟩, ⟨0, 0, 1⟩, ⟨0, 0, 1⟩, ⟨0, 0, 1⟩]
    texcoords := [⟨0, 0⟩, ⟨1, 0⟩, ⟨1, 1⟩, ⟨0, 1⟩]
    indices := [0, 1, 2, 0, 2, 3]
    bounding := unitBox }

/-- The single triangle of `triangleMesh` with the opposite winding. -/
def flippedTriangleMesh : Mesh := { triangleMesh with indices := [2, 1, 0] }

/-- A model of the indexed unit square. -/
def quadModel : Model := ⟨[quadMesh], unitBox⟩

/-- A model of the triangle with the opposite winding. -/
def flippedModel : Model := ⟨[flippedTriangleMesh], unitBox⟩

/-- A model.hpp model of one triangle placed 200000 units along the x axis. -/
def farModel : model :=
  ⟨[⟨[⟨⟨200000, 0, 0⟩, ⟨0, 0, 1⟩, ⟨0, 0⟩⟩, ⟨⟨200001, 0, 0⟩, ⟨0, 0, 1⟩, ⟨1, 0⟩⟩,
      ⟨⟨200000, 1, 0⟩, ⟨0, 0, 1⟩, ⟨0, 1⟩⟩], [0, 1, 2]⟩]⟩

/-- The counter `c` after `n` executions of `++`. -/
def CInt.after (c : CInt) : Nat → CInt
  | 0 => c
  | n + 1 => (c.after n).incr

/-! ## Counters -/

theorem CInt.ext_val (a b : CInt) (h : a.val = b.val) : a = b := by
  cases a
  cases b
  simp only at h
  subst h
  rfl

theorem CInt.after_val (c : CInt) (n : Nat) : (c.after n).val = wrapInt (c.val + n) := by
  induction n with
  | zero => simpa [CInt.after] using c.inRange.symm
  | succ n ih =>
    simp only [CInt.after, CInt.incr, CInt.wrap, ih]
    unfold wrapInt
    push_cast
    omega

theorem CInt.after_after (c : CInt) (a b : Nat) : (c.after a).after b = c.after (a + b) := by
  induction b with
  | zero => rfl
  | succ n ih =>
    show ((c.after a).after n).incr = (c.after (a + n)).incr
    rw [ih]

theorem CInt.incr_after (c : CInt) (n : Nat) : c.incr.after n = c.after (n + 1) := by
  have h : c.incr = c.after 1 := rfl
  rw [h, CInt.after_after, Nat.add_comm]

theorem wrapInt_of_lt (n : Nat) (h : n < 2147483648) : wrapInt n = n := by
  unfold wrapInt
  omega

/-! ## Loops -/

theorem forLoop_rel {σ : Type} (R : σ → σ → Prop) (hrefl : ∀ s, R s s)
    (htrans : ∀ a b c, R a b → R b c → R a c) (body : Nat → σ → Option σ) :
    ∀ (count start : Nat) (s s' : σ),
      (∀ i a b, start ≤ i → i < start + count → body i a = some b → R a b) →
      forLoop body start count s = some s' → R s s' := by
  intro count
  induction count with
  | zero =>
    intro start s s' _ h
    simp only [forLoop, Option.some.injEq] at h
    subst h
    exact hrefl s
  | succ n ih =>
    intro start s s' hstep h
    simp only [forLoop] at h
    cases hb : body start s with
    | none => simp [hb] at h
    | some t =>
      simp only [hb] at h
      have h1 : R s t := hstep start s t (Nat.le_refl _) (by omega) hb
      have h2 : R t s' := ih (start + 1) t s'
        (fun i a b hi1 hi2 hab => hstep i a b (by omega) (by omega) hab) h
      exact htrans _ _ _ h1 h2

theorem forLoop_count {σ : Type} (μ : σ → CInt) (k : Nat) (body : Nat → σ → Option σ) :
    ∀ (count start : Nat) (s s' : σ),
      (∀ i a b, start ≤ i → i < start + count → body i a = some b → μ b = (μ a).after k) →
      forLoop body start count s = some s' → μ s' = (μ s).after (count * k) := by
  intro count
  induction count with
  | zero =>
    intro start s s' _ h
    simp only [forLoop, Option.some.injEq] at h
    subst h
    simp [CInt.after]
  | succ n ih =>
    intro start s s' hstep h
    simp only [forLoop] at h
    cases hb : body start s with
    | none => simp [hb] at h
    | some t =>
      simp only [hb] at h
      have h1 := hstep start s t (Nat.le_refl _) (by omega) hb
      have h2 := ih (start + 1) t s'
        (fun i a b hi1 hi2 hab => hstep i a b (by omega) (by omega) hab) h
      rw [h2, h1, CInt.after_after, Nat.succ_mul, Nat.add_comm]

theorem forLoop_total {σ : Type} (body : Nat → σ → Option σ) :
    ∀ (count start : Nat) (s : σ),
      (∀ i a, start ≤ i → i < start + count → ∃ b, body i a = some b) →
      ∃ s', forLoop body start count s = some s' := by
  intro count
  induction count with
  | zero =>
    intro start s _
    exact ⟨s, rfl⟩
  | succ n ih =>
    intro start s hstep
    obtain ⟨t, ht⟩ := hstep start s (Nat.le_refl _) (by omega)
    obtain ⟨u, hu⟩ := ih (start + 1) t (fun i a hi1 hi2 => hstep i a (by omega) (by omega))
    exact ⟨u, by simp only [forLoop, ht, hu]⟩

/-! ## The triangle and mesh loops -/

theorem scanMesh_cons (W : World Camera Ray) (ray : Ray) (M : Mat4) (p1 p2 p3 : Vec3)
    (rest : List Vec3) (st : RaytraceStatistics) :
    scanMesh W ray M (p1 :: p2 :: p3 :: rest) st =
      if intersectTriple W ray (multiply M p1, multiply M p2, multiply M p3) = true then
        some (⟨st.tests.incr, st.intersections.incr, st.rays⟩, some 1)
      else scanMesh W ray M rest ⟨st.tests.incr, st.intersections, st.rays⟩ := by
  rw [scanMesh]
  cases h : W.intersectTriangle ray (multiply M p1) (multiply M p2) (multiply M p3) <;>
    simp [intersectTriple, h]

theorem triple_induction {α : Type} (P : List α → Prop) (h0 : P [])
    (h1 : ∀ a, P [a]) (h2 : ∀ a b, P [a, b])
    (h3 : ∀ a b c rest, P rest → P (a :: b :: c :: rest)) : ∀ l, P l
  | [] => h0
  | [a] => h1 a
  | [a, b] => h2 a b
  | a :: b :: c :: rest => h3 a b c rest (triple_induction P h0 h1 h2 h3 rest)

theorem scanMesh_rays (W : World Camera Ray) (ray : Ray) (M : Mat4) :
    ∀ (ps : List Vec3) (st st' : RaytraceStatistics) (d : Option ℚ),
      scanMesh W ray M ps st = some (st', d) → st'.rays = st.rays := by
  intro ps
  induction ps using triple_induction with
  | h0 =>
    intro st st' d h
    simp only [scanMesh, Option.some.injEq, Prod.mk.injEq] at h
    rw [← h.1]
  | h1 a => intro st st' d h; simp [scanMesh] at h
  | h2 a b => intro st st' d h; simp [scanMesh] at h
  | h3 a b c rest ih =>
    intro st st' d h
    rw [scanMesh_cons] at h
    split at h
    · simp only [Option.some.injEq, Prod.mk.injEq] at h
      rw [← h.1]
    · exact ih ⟨st.tests.incr, st.intersections, st.rays⟩ st' d h

theorem scanMeshes_rays (W : World Camera Ray) (ray : Ray) (M : Mat4) :
    ∀ (meshes : List Mesh) (st st' : RaytraceStatistics) (d : Option ℚ),
      scanMeshes W ray M meshes st = some (st', d) → st'.rays = st.rays := by
  intro meshes
  induction meshes with
  | nil =>
    intro st st' d h
    simp only [scanMeshes, Option.some.injEq, Prod.mk.injEq] at h
    rw [← h.1]
  | cons mesh rest ih =>
    intro st st' d h
    simp only [scanMeshes] at h
    split at h
    · exact ih st st' d h
    · split at h
      · simp at h
      · next st1 depth hs =>
        simp only [Option.some.injEq, Prod.mk.injEq] at h
        rw [← h.1]
        exact scanMesh_rays W ray M _ _ _ _ hs
      · next st1 hs =>
        rw [ih st1 st' d h]
        exact scanMesh_rays W ray M _ _ _ _ hs

theorem pixel_rays (W : World Camera Ray) (model : Model) (M : Mat4) (w x y : Nat)
    (s s' : Shared) (h : pixel W model M w x y s = some s') :
    s'.stats.rays = s.stats.rays.incr := by
  simp only [pixel] at h
  split at h
  · simp only [Option.some.injEq] at h
    rw [← h]
  · split at h
    · simp at h
    · next st depth hs =>
      have hr := scanMeshes_rays W _ M _ _ _ _ hs
      split at h <;>
      · simp only [Option.some.injEq] at h
        rw [← h]
        exact hr
/-! ## First hit -/

theorem scanMesh_no_hit (W : World Camera Ray) (ray : Ray) (M : Mat4) :
    ∀ (ps : List Vec3) (st : RaytraceStatistics), ps.length % 3 = 0 →
      (∀ t ∈ triples M ps, intersectTriple W ray t = false) →
      scanMesh W ray M ps st =
        some (⟨st.tests.after (triples M ps).length, st.intersections, st.rays⟩, none) := by
  intro ps
  induction ps using triple_induction with
  | h0 => intro st _ _; simp [scanMesh, triples, CInt.after]
  | h1 a => intro st h; simp at h
  | h2 a b => intro st h; simp at h
  | h3 a b c rest ih =>
    intro st hlen hall
    have hlen' : rest.length % 3 = 0 := by
      simp only [List.length_cons] at hlen
      omega
    have hhead : intersectTriple W ray (multiply M a, multiply M b, multiply M c) = false :=
      hall _ (by simp [triples])
    have htail : ∀ t ∈ triples M rest, intersectTriple W ray t = false :=
      fun t ht => hall t (by simp [triples, ht])
    rw [scanMesh_cons, hhead, if_neg (by simp), ih _ hlen' htail]
    simp only [triples, List.length_cons, CInt.incr_after]

theorem scanMesh_first_hit (W : World Camera Ray) (ray : Ray) (M : Mat4) :
    ∀ (ps : List Vec3) (k : Nat) (t : Vec3 × Vec3 × Vec3) (st : RaytraceStatistics),
      (triples M ps)[k]? = some t → intersectTriple W ray t = true →
      (∀ j u, j < k → (triples M ps)[j]? = some u → intersectTriple W ray u = false) →
      scanMesh W ray M ps st =
        some (⟨st.tests.after (k + 1), st.intersections.incr, st.rays⟩, some 1) := by
  intro ps
  induction ps using triple_induction with
  | h0 => intro k t st h; simp [triples] at h
  | h1 a => intro k t st h; simp [triples] at h
  | h2 a b => intro k t st h; simp [triples] at h
  | h3 a b c rest ih =>
    intro k t st hk ht hbefore
    rw [scanMesh_cons]
    cases k with
    | zero =>
      simp only [triples, List.getElem?_cons_zero, Option.some.injEq] at hk
      rw [hk, ht, if_pos rfl]
      rfl
    | succ n =>
      have hhead : intersectTriple W ray (multiply M a, multiply M b, multiply M c) = false :=
        hbefore 0 _ (Nat.succ_pos n) (by simp [triples])
      simp only [triples, List.getElem?_cons_succ] at hk
      rw [hhead, if_neg (by simp), ih n t _ hk ht
        (fun j u hj hu => hbefore (j + 1) u (by omega) (by simpa [triples] using hu))]
      simp only [CInt.incr_after]

theorem scanMeshes_cons (W : World Camera Ray) (ray : Ray) (M : Mat4) (mesh : Mesh)
    (rest : List Mesh) (st : RaytraceStatistics) :
    scanMeshes W ray M (mesh :: rest) st =
      if meshHit W ray M mesh = true then
        match scanMesh W ray M mesh.positions st with
        | none => none
        | some (st1, some depth) => some (st1, some depth)
        | some (st1, none) => scanMeshes W ray M rest st1
      else scanMeshes W ray M rest st := by
  rw [scanMeshes]
  cases h : W.intersectAABB ray (multiply M mesh.bounding.getMin)
      (multiply M mesh.bounding.getMax) <;> simp [meshHit, h]

theorem tested_nil (W : World Camera Ray) (ray : Ray) (M : Mat4) :
    tested W ray M [] = [] := by
  simp [tested]

theorem tested_cons (W : World Camera Ray) (ray : Ray) (M : Mat4) (mesh : Mesh)
    (rest : List Mesh) :
    tested W ray M (mesh :: rest) =
      if meshHit W ray M mesh = true then triples M mesh.positions ++ tested W ray M rest
      else tested W ray M rest := by
  cases h : meshHit W ray M mesh <;> simp [tested, List.filter_cons, h]

/-- On meshes that hold whole triples wherever the ray hits their box, the
triples the loops can reach are all the triples of the box-hit meshes. -/
theorem reached_eq_tested (W : World Camera Ray) (ray : Ray) (M : Mat4) :
    ∀ (meshes : List Mesh),
      (∀ mesh ∈ meshes, meshHit W ray M mesh = true → mesh.positions.length % 3 = 0) →
      reached W ray M meshes = tested W ray M meshes := by
  intro meshes
  induction meshes with
  | nil => intro _; simp [reached, tested_nil]
  | cons mesh rest ih =>
    intro hwf
    have hrest := ih (fun m hm => hwf m (List.mem_cons_of_mem _ hm))
    rw [tested_cons, reached]
    by_cases hh : meshHit W ray M mesh = true
    · rw [if_pos hh, if_pos hh, if_pos (hwf mesh (List.mem_cons_self _ _) hh), hrest]
    · rw [if_neg hh, if_neg hh, hrest]

theorem scanMeshes_no_hit (W : World Camera Ray) (ray : Ray) (M : Mat4) :
    ∀ (meshes : List Mesh) (st : RaytraceStatistics),
      (∀ mesh ∈ meshes, meshHit W ray M mesh = true → mesh.positions.length % 3 = 0) →
      (∀ t ∈ reached W ray M meshes, intersectTriple W ray t = false) →
      scanMeshes W ray M meshes st =
        some (⟨st.tests.after (reached W ray M meshes).length, st.intersections, st.rays⟩,
          none) := by
  intro meshes
  induction meshes with
  | nil => intro st _ _; simp [scanMeshes, reached, CInt.after]
  | cons mesh rest ih =>
    intro st hwf hall
    have hwf' : ∀ m ∈ rest, meshHit W ray M m = true → m.positions.length % 3 = 0 :=
      fun m hm => hwf m (List.mem_cons_of_mem _ hm)
    rw [scanMeshes_cons]
    rw [reached] at hall ⊢
    by_cases hh : meshHit W ray M mesh = true
    · have hlen := hwf mesh (List.mem_cons_self _ _) hh
      simp only [hh, hlen, if_true] at hall ⊢
      have h1 := scanMesh_no_hit W ray M mesh.positions st hlen
        (fun t ht => hall t (List.mem_append_left _ ht))
      rw [h1]
      simp only
      rw [ih _ hwf' (fun t ht => hall t (List.mem_append_right _ ht))]
      simp only [List.length_append, CInt.after_after]
    · simp only [hh, if_false] at hall ⊢
      exact ih st hwf' hall

theorem scanMeshes_first_hit (W : World Camera Ray) (ray : Ray) (M : Mat4) :
    ∀ (meshes : List Mesh) (k : Nat) (t : Vec3 × Vec3 × Vec3) (st : RaytraceStatistics),
      (reached W ray M meshes)[k]? = some t → intersectTriple W ray t = true →
      (∀ j u, j < k → (reached W ray M meshes)[j]? = some u →
        intersectTriple W ray u = false) →
      scanMeshes W ray M meshes st =
        some (⟨st.tests.after (k + 1), st.intersections.incr, st.rays⟩, some 1) := by
  intro meshes
  induction meshes with
  | nil => intro k t st hk; simp [reached] at hk
  | cons mesh rest ih =>
    intro k t st hk ht hbefore
    rw [scanMeshes_cons]
    rw [reached] at hk hbefore
    by_cases hh : meshHit W ray M mesh = true
    · simp only [hh, if_true] at hk hbefore ⊢
      by_cases hlen : mesh.positions.length % 3 = 0
      · simp only [hlen, if_true] at hk hbefore
        by_cases hlt : k < (triples M mesh.positions).length
        · rw [List.getElem?_append_left hlt] at hk
          have h1 := scanMesh_first_hit W ray M mesh.positions k t st hk ht
            (fun j u hj hu => hbefore j u hj (by
              rw [List.getElem?_append_left (by omega)]
              exact hu))
          rw [h1]
        · have hge : (triples M mesh.positions).length ≤ k := Nat.le_of_not_lt hlt
          rw [List.getElem?_append_right hge] at hk
          have h1 := scanMesh_no_hit W ray M mesh.positions st hlen
            (fun u hu => by
              obtain ⟨j, hj, hju⟩ := List.getElem_of_mem hu
              exact hbefore j u (by omega) (by
                rw [List.getElem?_append_left hj, List.getElem?_eq_getElem hj, hju]))
          rw [h1]
          simp only
          rw [ih (k - (triples M mesh.positions).length) t _ hk ht
            (fun j u hj hu => hbefore (j + (triples M mesh.positions).length) u (by omega) (by
              rw [List.getElem?_append_right (by omega)]
              simpa using hu))]
          simp only [CInt.after_after]
          congr 4
          omega
      · simp only [hlen, if_false] at hk hbefore
        rw [scanMesh_first_hit W ray M mesh.positions k t st hk ht hbefore]
    · simp only [hh, if_false] at hk hbefore ⊢
      exact ih k t st hk ht hbefore

/-! ## From pixels to workers to raytrace -/

theorem rt_rel (W : World Camera Ray) (model : Model) (R : Shared → Shared → Prop)
    (hrefl : ∀ s, R s s) (htrans : ∀ a b c, R a b → R b c → R a c) (rowFrom rowTo : Nat)
    (hpix : ∀ x y a b, x < W.width → rowFrom ≤ y → y < rowTo →
      pixel W model (modelMatrix W) W.width x y a = some b → R a b)
    (s s' : Shared) (h : rt W model rowFrom rowTo s = some s') : R s s' := by
  refine forLoop_rel R hrefl htrans _ (rowTo - rowFrom) rowFrom s s' ?_ h
  intro y a b hy1 hy2 hrow
  refine forLoop_rel R hrefl htrans _ W.width 0 a b ?_ hrow
  intro x c d _ hx2 hp
  exact hpix x y c d (by omega) hy1 (by omega) hp

theorem rt_total (W : World Camera Ray) (model : Model) (rowFrom rowTo : Nat)
    (hpix : ∀ x y a, x < W.width → rowFrom ≤ y → y < rowTo →
      ∃ b, pixel W model (modelMatrix W) W.width x y a = some b)
    (s : Shared) : ∃ s', rt W model rowFrom rowTo s = some s' := by
  refine forLoop_total _ (rowTo - rowFrom) rowFrom s ?_
  intro y a hy1 hy2
  refine forLoop_total _ W.width 0 a ?_
  intro x c _ hx2
  exact hpix x y c (by omega) hy1 (by omega)

theorem rt_rays (W : World Camera Ray) (model : Model) (rowFrom rowTo : Nat)
    (s s' : Shared) (h : rt W model rowFrom rowTo s = some s') :
    s'.stats.rays = s.stats.rays.after ((rowTo - rowFrom) * W.width) := by
  refine forLoop_count (fun t => t.stats.rays) W.width _ (rowTo - rowFrom) rowFrom s s' ?_ h
  intro y a b _ _ hrow
  have := forLoop_count (fun t => t.stats.rays) 1 _ W.width 0 a b
    (fun x c d _ _ hp => pixel_rays W model _ _ x y c d hp) hrow
  simpa using this

theorem band_le (h q i : Nat) (hi : i < q) : h / q * i + h / q ≤ h := by
  have h1 : h / q * i + h / q = h / q * (i + 1) := by ring
  have h2 : h / q * (i + 1) ≤ h / q * q := Nat.mul_le_mul_left _ hi
  have h3 : h / q * q ≤ h := Nat.div_mul_le_self h q
  omega

theorem raytrace_rel (W : World Camera Ray) (model : Model) (R : Shared → Shared → Prop)
    (hrefl : ∀ s, R s s) (htrans : ∀ a b c, R a b → R b c → R a c) (q : Nat)
    (hpix : ∀ x y a b, x < W.width → y < W.height →
      pixel W model (modelMatrix W) W.width x y a = some b → R a b)
    (r : Raytraced) (h : raytrace W model q = some r) :
    R initial ⟨r.data, r.stats⟩ := by
  refine forLoop_rel (fun a b : Raytraced => R ⟨a.data, a.stats⟩ ⟨b.data, b.stats⟩)
    (fun a => hrefl _) (fun a b c => htrans _ _ _) _ q 0 _ r ?_ h
  intro i a b _ hi hs
  simp only [spawn] at hs
  split at hs
  · simp at hs
  · next t ht =>
    simp only [Option.some.injEq] at hs
    rw [← hs]
    refine rt_rel W model R hrefl htrans _ _ ?_ _ _ ht
    intro x y c d hx _ hy hp
    have := band_le W.height q i (by omega)
    exact hpix x y c d hx (by omega) hp

theorem raytrace_total (W : World Camera Ray) (model : Model) (q : Nat)
    (hpix : ∀ x y a, x < W.width → y < W.height →
      ∃ b, pixel W model (modelMatrix W) W.width x y a = some b) :
    ∃ r, raytrace W model q = some r := by
  refine forLoop_total _ q 0 _ ?_
  intro i a _ hi
  have hb := band_le W.height q i (by omega)
  obtain ⟨t, ht⟩ := rt_total W model (W.height / q * i) (W.height / q * i + W.height / q)
    (fun x y c hx _ hy => hpix x y c hx (by omega)) ⟨a.data, a.stats⟩
  exact ⟨⟨t.data, t.stats, a.threads ++ [(W.height / q * i, W.height / q * i + W.height / q)]⟩,
    by simp only [spawn, ht]⟩

theorem raytrace_rays (W : World Camera Ray) (model : Model) (q : Nat) (r : Raytraced)
    (h : raytrace W model q = some r) :
    r.stats.rays.val = wrapInt (W.width * (q * (W.height / q)) : Nat) := by
  have := forLoop_count (fun t : Raytraced => t.stats.rays) (W.height / q * W.width) _ q 0 _ r
    ?_ h
  · simp only at this
    rw [this, CInt.after_val]
    have h0 : CInt.zero.val = 0 := by decide
    have h1 : q * (W.height / q * W.width) = W.width * (q * (W.height / q)) := by ring
    rw [h0, h1, Int.zero_add]
  · intro i a b _ _ hs
    simp only [spawn] at hs
    split at hs
    · simp at hs
    · next t ht =>
      simp only [Option.some.injEq] at hs
      rw [← hs]
      have := rt_rays W model _ _ _ _ ht
      simpa using this

/-- The row bands `raytrace` hands to its workers. -/
theorem raytrace_threads (W : World Camera Ray) (model : Model) (q : Nat) (r : Raytraced)
    (h : raytrace W model q = some r) :
    r.threads = (List.range q).map
      (fun i => (W.height / q * i, W.height / q * i + W.height / q)) := by
  have key : ∀ (count start : Nat) (a b : Raytraced),
      forLoop (spawn W model W.height q) start count a = some b →
      b.threads = a.threads ++ (List.range' start count).map
        (fun i => (W.height / q * i, W.height / q * i + W.height / q)) := by
    intro count
    induction count with
    | zero =>
      intro start a b hab
      simp only [forLoop, Option.some.injEq] at hab
      simp [hab]
    | succ n ih =>
      intro start a b hab
      simp only [forLoop] at hab
      split at hab
      · simp at hab
      · next c hc =>
        rw [ih _ _ _ hab]
        simp only [spawn] at hc
        split at hc
        · simp at hc
        · simp only [Option.some.injEq] at hc
          rw [← hc]
          simp [List.range'_succ]
  have := key q 0 _ r h
  simpa [List.range_eq_range'] using this

/-! ## One pixel -/

theorem pixel_miss (W : World Camera Ray) (model : Model) (M : Mat4) (w x y : Nat) (s : Shared)
    (h : W.intersectAABB (W.createRay W.camera x y w W.height W.aspect)
      (multiply M model.bounding.getMin) (multiply M model.bounding.getMax) = false) :
    pixel W model M w x y s =
      some ⟨s.data, ⟨s.stats.tests, s.stats.intersections, s.stats.rays.incr⟩⟩ := by
  simp [pixel, h]

theorem pixel_no_mesh (W : World Camera Ray) (model : Model) (M : Mat4) (w x y : Nat)
    (s : Shared) (h : model.meshes = []) :
    pixel W model M w x y s =
      some ⟨s.data, ⟨s.stats.tests, s.stats.intersections, s.stats.rays.incr⟩⟩ := by
  simp only [pixel, h, scanMeshes]
  split <;> simp

theorem pixel_frame (W : World Camera Ray) (model : Model) (M : Mat4) (w x y : Nat)
    (s s' : Shared) (h : pixel W model M w x y s = some s') (j : Nat)
    (hj : j < (x + y * w) * 3 ∨ (x + y * w) * 3 + 3 ≤ j) : s'.data j = s.data j := by
  simp only [pixel] at h
  split at h
  · simp only [Option.some.injEq] at h
    rw [← h]
  · split at h
    · simp at h
    · split at h
      · simp only [Option.some.injEq] at h
        rw [← h]
        simp only [writeHit]
        rw [if_neg (by omega), if_neg (by omega), if_neg (by omega)]
      · simp only [Option.some.injEq] at h
        rw [← h]

theorem scanMesh_total (W : World Camera Ray) (ray : Ray) (M : Mat4) :
    ∀ (ps : List Vec3) (st : RaytraceStatistics), ps.length % 3 = 0 →
      ∃ r, scanMesh W ray M ps st = some r := by
  intro ps
  induction ps using triple_induction with
  | h0 => intro st _; exact ⟨(st, none), by simp only [scanMesh]⟩
  | h1 a => intro st h; simp at h
  | h2 a b => intro st h; simp at h
  | h3 a b c rest ih =>
    intro st hlen
    rw [scanMesh_cons]
    split
    · exact ⟨_, rfl⟩
    · exact ih _ (by simp only [List.length_cons] at hlen; omega)

theorem scanMeshes_total (W : World Camera Ray) (ray : Ray) (M : Mat4) :
    ∀ (meshes : List Mesh) (st : RaytraceStatistics),
      (∀ mesh ∈ meshes, meshHit W ray M mesh = true → mesh.positions.length % 3 = 0) →
      ∃ r, scanMeshes W ray M meshes st = some r := by
  intro meshes
  induction meshes with
  | nil => intro st _; exact ⟨(st, none), by simp only [scanMeshes]⟩
  | cons mesh rest ih =>
    intro st hwf
    have hwf' : ∀ m ∈ rest, meshHit W ray M m = true → m.positions.length % 3 = 0 :=
      fun m hm => hwf m (List.mem_cons_of_mem _ hm)
    rw [scanMeshes_cons]
    split
    · next hh =>
      obtain ⟨r, hr⟩ := scanMesh_total W ray M mesh.positions st
        (hwf mesh (List.mem_cons_self _ _) hh)
      rw [hr]
      obtain ⟨st1, d⟩ := r
      cases d with
      | none => exact ih st1 hwf'
      | some depth => exact ⟨_, rfl⟩
    · exact ih st hwf'

theorem pixel_total (W : World Camera Ray) (model : Model) (M : Mat4) (w x y : Nat)
    (s : Shared) (hwf : ∀ mesh ∈ model.meshes, mesh.positions.length % 3 = 0) :
    ∃ s', pixel W model M w x y s = some s' := by
  simp only [pixel]
  split
  · exact ⟨_, rfl⟩
  · obtain ⟨r, hr⟩ := scanMeshes_total W (W.createRay W.camera x y w W.height W.aspect) M
      model.meshes ⟨s.stats.tests, s.stats.intersections, s.stats.rays.incr⟩
      (fun mesh hm _ => hwf mesh hm)
    rw [hr]
    simp only
    split <;> exact ⟨_, rfl⟩

/-! ## Runs in which no triangle is ever tested -/

theorem raytrace_quiet (W : World Camera Ray) (model : Model) (q : Nat)
    (hq : ∀ x y s, x < W.width → y < W.height →
      pixel W model (modelMatrix W) W.width x y s =
        some ⟨s.data, ⟨s.stats.tests, s.stats.intersections, s.stats.rays.incr⟩⟩) :
    ∃ r, raytrace W model q = some r ∧ r.stats.tests.val = 0 ∧
      r.stats.intersections.val = 0 ∧ ∀ j, r.data j = 0 := by
  obtain ⟨r, hr⟩ := raytrace_total W model q (fun x y a hx hy => ⟨_, hq x y a hx hy⟩)
  have hrel := raytrace_rel W model
    (fun a b => b.data = a.data ∧ b.stats.tests = a.stats.tests ∧
      b.stats.intersections = a.stats.intersections)
    (fun s => ⟨rfl, rfl, rfl⟩)
    (fun a b c hab hbc => ⟨hbc.1.trans hab.1, hbc.2.1.trans hab.2.1, hbc.2.2.trans hab.2.2⟩)
    q
    (fun x y a b hx hy hp => by
      rw [hq x y a hx hy, Option.some.injEq] at hp
      rw [← hp]
      exact ⟨rfl, rfl, rfl⟩)
    r hr
  simp only [initial] at hrel
  refine ⟨r, hr, ?_, ?_, fun j => ?_⟩
  · rw [hrel.2.1]
    decide
  · rw [hrel.2.2]
    decide
  · rw [hrel.1]

/-! ## The claims -/

/-- C1, at the viewport of width 1 and height 5 with two workers: `raytrace`
spawns the bands of rows 0 to 1 and 2 to 3 and casts 4 rays, not 1 * 5; row 4 is
handed to no worker. -/
theorem raytrace_skips_remainder_rows :
    (raytrace (rowWorld 1 5) triangleModel 2).map (fun r => (r.stats.rays.val, r.threads)) =
        some (4, [(0, 2), (2, 4)]) ∧
      (4 : Int) ≠ 1 * 5 := by
  decide

/-- C2: if `intersectAABB` is false for the transformed bounding box of the model
on the ray of every pixel of the viewport, then `raytrace` ends with the tests
counter at 0, the intersections counter at 0 and every byte of the buffer at its
initial value 0. -/
theorem raytrace_model_box_missed (W : World Camera Ray) (model : Model) (q : Nat)
    (hmiss : ∀ x y, x < W.width → y < W.height →
      W.intersectAABB (pixelRay W x y) (multiply (modelMatrix W) model.bounding.getMin)
        (multiply (modelMatrix W) model.bounding.getMax) = false) :
    ∃ r, raytrace W model q = some r ∧ r.stats.tests.val = 0 ∧
      r.stats.intersections.val = 0 ∧ ∀ j, r.data j = 0 :=
  raytrace_quiet W model q (fun x y s hx hy => pixel_miss W model _ _ x y s (hmiss x y hx hy))

theorem raytrace_model_box_missed_witness :
    (∀ x y, x < (missWorld 2 3).width → y < (missWorld 2 3).height →
      (missWorld 2 3).intersectAABB (pixelRay (missWorld 2 3) x y)
        (multiply (modelMatrix (missWorld 2 3)) triangleModel.bounding.getMin)
        (multiply (modelMatrix (missWorld 2 3)) triangleModel.bounding.getMax) = false) ∧
    ∃ r, raytrace (missWorld 2 3) triangleModel 2 = some r ∧ r.stats.tests.val = 0 ∧
      r.stats.intersections.val = 0 ∧ ∀ j, r.data j = 0 :=
  ⟨fun _ _ _ _ => rfl,
    raytrace_model_box_missed (missWorld 2 3) triangleModel 2 (fun _ _ _ _ => rfl)⟩

/-- C6, refuted as stated: on the empty model, a viewport of one pixel and one
reported core, `raytrace` spawns one worker (rows 0 to 0) and casts one ray, so
neither the number of workers nor the rays counter is 0. -/
theorem raytrace_empty_model_counterexample :
    (raytrace (rowWorld 1 1) emptyModel 1).map (fun r => (r.threads, r.stats.rays.val)) =
        some ([(0, 1)], 1) ∧
      ([(0, 1)] : List (Nat × Nat)).length ≠ 0 ∧ (1 : Int) ≠ 0 := by
  decide

/-- C6, as amended: on a model without meshes `raytrace` still spawns one worker
per reported core and the workers still cast their rays (one per pixel of the
viewport when the number of workers divides the height, counted in the 32-bit
counter); no triangle is tested, no intersection is counted and every byte of the
buffer keeps the value 0. -/
theorem raytrace_empty_model (W : World Camera Ray) (model : Model) (q : Nat)
    (hempty : model.meshes = []) :
    ∃ r, raytrace W model q = some r ∧ r.threads.length = q ∧ r.stats.tests.val = 0 ∧
      r.stats.intersections.val = 0 ∧ (∀ j, r.data j = 0) ∧
      (q ∣ W.height → r.stats.rays.val = wrapInt (W.width * W.height : Nat)) ∧
      (q ∣ W.height → W.width * W.height < 2147483648 →
        r.stats.rays.val = (W.width * W.height : Nat)) := by
  obtain ⟨r, hr, ht, hi, hd⟩ := raytrace_quiet W model q
    (fun x y s _ _ => pixel_no_mesh W model _ _ x y s hempty)
  have hrays : q ∣ W.height → r.stats.rays.val = wrapInt (W.width * W.height : Nat) := by
    intro hdiv
    rw [raytrace_rays W model q r hr, Nat.mul_div_cancel' hdiv]
  refine ⟨r, hr, ?_, ht, hi, hd, hrays, fun hdiv hlt => ?_⟩
  · rw [raytrace_threads W model q r hr]
    simp
  · rw [hrays hdiv, wrapInt_of_lt _ hlt]

theorem raytrace_empty_model_witness :
    emptyModel.meshes = [] ∧
    ∃ r, raytrace (rowWorld 2 4) emptyModel 2 = some r ∧ r.threads.length = 2 ∧
      r.stats.tests.val = 0 ∧ r.stats.intersections.val = 0 ∧ (∀ j, r.data j = 0) ∧
      (2 ∣ (rowWorld 2 4).height →
        r.stats.rays.val = wrapInt ((rowWorld 2 4).width * (rowWorld 2 4).height : Nat)) ∧
      (2 ∣ (rowWorld 2 4).height → (rowWorld 2 4).width * (rowWorld 2 4).height < 2147483648 →
        r.stats.rays.val = ((rowWorld 2 4).width * (rowWorld 2 4).height : Nat)) :=
  ⟨rfl, raytrace_empty_model (rowWorld 2 4) emptyModel 2 rfl⟩

/-- C7, refuted as stated: when the reported hardware concurrency is 0,
`raytrace` spawns no worker at all, while max(1, 0) is 1. -/
theorem raytrace_no_fallback_counterexample :
    (raytrace (rowWorld 1 1) triangleModel 0).map (fun r => r.threads.length) = some 0 ∧
      (0 : Nat) ≠ max 1 0 := by
  decide

/-- C7, as amended: the workers `raytrace` spawns are exactly one per reported
core, in every case, and there is no fallback: when the reported hardware
concurrency is 0 it spawns no worker, casts no ray and leaves every byte of the
buffer at 0. On a model whose meshes hold whole position triples the run
completes for every number of cores. -/
theorem raytrace_spawns_reported_concurrency (W : World Camera Ray) (model : Model) (q : Nat) :
    (∀ r, raytrace W model q = some r → r.threads.length = q) ∧
    (∃ r, raytrace W model 0 = some r ∧ r.threads = [] ∧
      r.stats = ⟨CInt.zero, CInt.zero, CInt.zero⟩ ∧ CInt.zero.val = 0 ∧ ∀ j, r.data j = 0) ∧
    ((∀ mesh ∈ model.meshes, mesh.positions.length % 3 = 0) →
      ∃ r, raytrace W model q = some r) := by
  refine ⟨fun r hr => ?_, ⟨_, rfl, rfl, rfl, by decide, fun _ => rfl⟩, fun hwf => ?_⟩
  · rw [raytrace_threads W model q r hr]
    simp
  · exact raytrace_total W model q (fun x y a _ _ => pixel_total W model _ _ x y a hwf)

theorem raytrace_spawns_reported_concurrency_witness :
    ∃ r, raytrace (rowWorld 2 4) triangleModel 2 = some r ∧ r.threads.length = 2 := by
  obtain ⟨hlen, _, htotal⟩ := raytrace_spawns_reported_concurrency (rowWorld 2 4) triangleModel 2
  obtain ⟨r, hr⟩ := htotal (by decide)
  exact ⟨r, hr, hlen r hr⟩

/-- C3, refuted as stated, twice. On the indexed unit square (4 positions: one
whole triple and a leftover position) and a ray that hits the boxes but no
triangle, the triangle loop of `rt` tests the triple and then reads `positions[4]`
out of bounds: the pixel body yields no result, where the claim has tests grow by
1 and nothing else change. And when the tests counter holds 2147483647, a first
hit at index 0 leaves it at -2147483648, not at 2147483647 + 1. -/
theorem rt_first_hit_counterexample :
    tested (rowWorld 1 2) (pixelRay (rowWorld 1 2) 0 1) (modelMatrix (rowWorld 1 2))
        quadModel.meshes =
      triples (modelMatrix (rowWorld 1 2)) quadMesh.positions ∧
    (triples (modelMatrix (rowWorld 1 2)) quadMesh.positions).length = 1 ∧
    (pixel (rowWorld 1 2) quadModel (modelMatrix (rowWorld 1 2)) 1 0 1 initial).isNone = true ∧
    (pixel (rowWorld 1 1) triangleModel (modelMatrix (rowWorld 1 1)) 1 0 0 saturated).map
        (fun s => s.stats.tests.val) = some (-2147483648) ∧
    saturated.stats.tests.val = 2147483647 ∧
    (-2147483648 : Int) ≠ 2147483647 + (0 + 1) := by
  refine ⟨rfl, rfl, by decide, by decide, by decide, by decide⟩

/-- C3, as amended: first-hit semantics of `rt` for one pixel `(x, y)` whose ray
passes the bounding box test of the model. With T the concatenation, in mesh
order, of the consecutive whole position triples of the meshes whose transformed
bounding box the ray hits, up to and including the first such mesh whose number of
positions is not a multiple of 3 (all of them when there is none): if `k` is the
index of the first triple of T on which `intersectTriangle` succeeds, the tests
counter is incremented exactly `k + 1` times and the intersections counter exactly
once, as 32-bit counters, and the three bytes of the pixel become 255, 0, 0; if no
triple succeeds and every box-hit mesh holds whole triples, the tests counter is
incremented once per triple of T, and the intersections counter and the whole
buffer are unchanged. A counter that stays below 2147483648 grows by exactly the
number of increments. -/
theorem rt_first_hit (W : World Camera Ray) (model : Model) (x y : Nat) (s : Shared)
    (hbox : W.intersectAABB (pixelRay W x y) (multiply (modelMatrix W) model.bounding.getMin)
      (multiply (modelMatrix W) model.bounding.getMax) = true) :
    (∀ k t, (reached W (pixelRay W x y) (modelMatrix W) model.meshes)[k]? = some t →
      intersectTriple W (pixelRay W x y) t = true →
      (∀ j u, j < k → (reached W (pixelRay W x y) (modelMatrix W) model.meshes)[j]? = some u →
        intersectTriple W (pixelRay W x y) u = false) →
      ∃ s', pixel W model (modelMatrix W) W.width x y s = some s' ∧
        s'.stats.tests.val = wrapInt (s.stats.tests.val + (k + 1 : Nat)) ∧
        s'.stats.intersections.val = wrapInt (s.stats.intersections.val + 1) ∧
        (s.stats.tests.val + (k + 1 : Nat) < 2147483648 →
          s'.stats.tests.val = s.stats.tests.val + (k + 1 : Nat)) ∧
        (s.stats.intersections.val + 1 < 2147483648 →
          s'.stats.intersections.val = s.stats.intersections.val + 1) ∧
        s'.data ((x + y * W.width) * 3 + 0) = 255 ∧
        s'.data ((x + y * W.width) * 3 + 1) = 0 ∧
        s'.data ((x + y * W.width) * 3 + 2) = 0) ∧
    ((∀ mesh ∈ model.meshes, meshHit W (pixelRay W x y) (modelMatrix W) mesh = true →
        mesh.positions.length % 3 = 0) →
      reached W (pixelRay W x y) (modelMatrix W) model.meshes =
        tested W (pixelRay W x y) (modelMatrix W) model.meshes ∧
      ((∀ t ∈ reached W (pixelRay W x y) (modelMatrix W) model.meshes,
          intersectTriple W (pixelRay W x y) t = false) →
        ∃ s', pixel W model (modelMatrix W) W.width x y s = some s' ∧
          s'.stats.tests.val = wrapInt (s.stats.tests.val +
            ((reached W (pixelRay W x y) (modelMatrix W) model.meshes).length : Nat)) ∧
          (s.stats.tests.val +
              ((reached W (pixelRay W x y) (modelMatrix W) model.meshes).length : Nat) <
              2147483648 →
            s'.stats.tests.val = s.stats.tests.val +
              ((reached W (pixelRay W x y) (modelMatrix W) model.meshes).length : Nat)) ∧
          s'.stats.intersections = s.stats.intersections ∧
          ∀ j, s'.data j = s.data j)) := by
  have hlow : ∀ c : CInt, -2147483648 ≤ c.val := by
    intro c
    have := c.inRange
    unfold wrapInt at this
    omega
  have hexact : ∀ (c : CInt) (n : Nat), c.val + (n : Int) < 2147483648 →
      wrapInt (c.val + (n : Int)) = c.val + (n : Int) := by
    intro c n hlt
    have := hlow c
    unfold wrapInt
    omega
  simp only [pixelRay] at hbox ⊢
  constructor
  · intro k t hk ht hbefore
    have h := scanMeshes_first_hit W _ (modelMatrix W) model.meshes k t
      ⟨s.stats.tests, s.stats.intersections, s.stats.rays.incr⟩ hk ht hbefore
    have hi : s.stats.intersections.incr.val = wrapInt (s.stats.intersections.val + 1) := rfl
    refine ⟨⟨writeHit s.data ((x + y * W.width) * 3),
      ⟨s.stats.tests.after (k + 1), s.stats.intersections.incr, s.stats.rays.incr⟩⟩,
      ?_, CInt.after_val _ _, hi, ?_, ?_, ?_, ?_, ?_⟩
    · simp only [pixel, hbox, h]
      simp
    · intro hlt
      rw [CInt.after_val]
      exact hexact _ _ hlt
    · intro hlt
      rw [hi]
      exact hexact s.stats.intersections 1 hlt
    · simp [writeHit]
    · simp [writeHit]
    · simp [writeHit]
  · intro hwf
    refine ⟨reached_eq_tested W _ (modelMatrix W) model.meshes hwf, fun hall => ?_⟩
    have h := scanMeshes_no_hit W _ (modelMatrix W) model.meshes
      ⟨s.stats.tests, s.stats.intersections, s.stats.rays.incr⟩ hwf hall
    refine ⟨⟨s.data, ⟨s.stats.tests.after
      (reached W (W.createRay W.camera x y W.width W.height W.aspect) (modelMatrix W)
        model.meshes).length, s.stats.intersections, s.stats.rays.incr⟩⟩,
      ?_, CInt.after_val _ _, ?_, rfl, fun _ => rfl⟩
    · simp only [pixel, hbox, h]
      simp
    · intro hlt
      rw [CInt.after_val]
      exact hexact _ _ hlt

theorem rt_first_hit_witness :
    ∃ s', pixel (rowWorld 1 1) quadModel (modelMatrix (rowWorld 1 1)) (rowWorld 1 1).width
        0 0 saturated = some s' ∧
      s'.stats.tests.val = wrapInt (saturated.stats.tests.val + (0 + 1 : Nat)) ∧
      s'.stats.intersections.val = wrapInt (saturated.stats.intersections.val + 1) ∧
      (saturated.stats.tests.val + (0 + 1 : Nat) < 2147483648 →
        s'.stats.tests.val = saturated.stats.tests.val + (0 + 1 : Nat)) ∧
      (saturated.stats.intersections.val + 1 < 2147483648 →
        s'.stats.intersections.val = saturated.stats.intersections.val + 1) ∧
      s'.data ((0 + 0 * (rowWorld 1 1).width) * 3 + 0) = 255 ∧
      s'.data ((0 + 0 * (rowWorld 1 1).width) * 3 + 1) = 0 ∧
      s'.data ((0 + 0 * (rowWorld 1 1).width) * 3 + 2) = 0 :=
  (rt_first_hit (rowWorld 1 1) quadModel 0 0 saturated rfl).1 0
    (multiply (modelMatrix (rowWorld 1 1)) ⟨0, 0, 0⟩,
      multiply (modelMatrix (rowWorld 1 1)) ⟨1, 0, 0⟩,
      multiply (modelMatrix (rowWorld 1 1)) ⟨1, 1, 0⟩)
    rfl rfl (fun j _ hj _ => absurd hj (Nat.not_lt_zero j))

/-- C4: the row bands handed to the workers are contiguous, pairwise disjoint
and inside the image, and a run of `rt` on the rows from `rowFrom` up to `rowTo`
leaves every byte outside the offsets from `rowFrom * w * 3` up to
`rowTo * w * 3` as it was, whatever the buffer held before. So every write of
worker `i` is inside the buffer of `w * h * 3` bytes and inside its own rows, and
of two different workers at least one never writes a given byte. On meshes that
hold whole position triples every run of `rt` completes. -/
theorem rt_writes_own_rows (W : World Camera Ray) (model : Model) (q : Nat) :
    (∀ i, W.height / q * i + W.height / q = W.height / q * (i + 1)) ∧
    (∀ i k, i < k → k < q → W.height / q * i + W.height / q ≤ W.height / q * k) ∧
    (∀ i, i < q → W.height / q * i + W.height / q ≤ W.height) ∧
    (∀ i, i < q → (W.height / q * i + W.height / q) * W.width * 3 ≤ W.width * W.height * 3) ∧
    (∀ rowFrom rowTo s s', rt W model rowFrom rowTo s = some s' →
      ∀ j, j < rowFrom * W.width * 3 ∨ rowTo * W.width * 3 ≤ j → s'.data j = s.data j) ∧
    (∀ i k, i < q → k < q → i ≠ k → ∀ j,
      (∀ s s', rt W model (W.height / q * i) (W.height / q * i + W.height / q) s = some s' →
        s'.data j = s.data j) ∨
      (∀ s s', rt W model (W.height / q * k) (W.height / q * k + W.height / q) s = some s' →
        s'.data j = s.data j)) ∧
    ((∀ mesh ∈ model.meshes, mesh.positions.length % 3 = 0) →
      ∀ rowFrom rowTo s, ∃ s', rt W model rowFrom rowTo s = some s') := by
  have hcontig : ∀ i, W.height / q * i + W.height / q = W.height / q * (i + 1) := by
    intro i
    ring
  have hdisj : ∀ i k, i < k → k < q →
      W.height / q * i + W.height / q ≤ W.height / q * k := by
    intro i k hik _
    rw [hcontig]
    exact Nat.mul_le_mul_left _ hik
  have hframe : ∀ rowFrom rowTo s s', rt W model rowFrom rowTo s = some s' →
      ∀ j, j < rowFrom * W.width * 3 ∨ rowTo * W.width * 3 ≤ j → s'.data j = s.data j := by
    intro rowFrom rowTo s s' h
    refine rt_rel W model
      (fun a b => ∀ j, j < rowFrom * W.width * 3 ∨ rowTo * W.width * 3 ≤ j → b.data j = a.data j)
      (fun _ _ _ => rfl) (fun a b c hab hbc j hj => (hbc j hj).trans (hab j hj))
      rowFrom rowTo ?_ s s' h
    intro x y a b hx hy1 hy2 hp j hj
    refine pixel_frame W model _ _ x y a b hp j ?_
    have h1 : rowFrom * W.width ≤ y * W.width := Nat.mul_le_mul_right _ hy1
    have h2 : (y + 1) * W.width ≤ rowTo * W.width := Nat.mul_le_mul_right _ hy2
    have h3 : (y + 1) * W.width = y * W.width + W.width := by ring
    omega
  refine ⟨hcontig, hdisj, fun i hi => band_le _ _ _ hi, fun i hi => ?_, hframe, ?_, ?_⟩
  · have h1 := band_le W.height q i hi
    have h2 : (W.height / q * i + W.height / q) * W.width ≤ W.height * W.width :=
      Nat.mul_le_mul_right _ h1
    have h3 : W.width * W.height = W.height * W.width := Nat.mul_comm _ _
    omega
  · intro i k _ hk hne j
    rcases Nat.lt_or_gt_of_ne hne with hlt | hgt
    · by_cases hj : j < (W.height / q * i + W.height / q) * W.width * 3
      · right
        intro s s' h
        refine hframe _ _ s s' h j (Or.inl ?_)
        have h1 : (W.height / q * i + W.height / q) * W.width ≤ W.height / q * k * W.width :=
          Nat.mul_le_mul_right _ (hdisj i k hlt hk)
        omega
      · left
        intro s s' h
        exact hframe _ _ s s' h j (Or.inr (by omega))
    · by_cases hj : j < (W.height / q * k + W.height / q) * W.width * 3
      · left
        intro s s' h
        refine hframe _ _ s s' h j (Or.inl ?_)
        have h1 : (W.height / q * k + W.height / q) * W.width ≤ W.height / q * i * W.width :=
          Nat.mul_le_mul_right _ (hdisj k i hgt (by omega))
        omega
      · right
        intro s s' h
        exact hframe _ _ s s' h j (Or.inr (by omega))
  · intro hwf rowFrom rowTo s
    exact rt_total W model rowFrom rowTo (fun x y a _ _ _ => pixel_total W model _ _ x y a hwf) s

theorem rt_writes_own_rows_witness :
    ∃ s', rt (rowWorld 2 4) triangleModel 0 2 initial = some s' ∧
      s'.data (2 * (rowWorld 2 4).width * 3) = initial.data (2 * (rowWorld 2 4).width * 3) := by
  obtain ⟨_, _, _, _, hframe, _, htotal⟩ := rt_writes_own_rows (rowWorld 2 4) triangleModel 2
  obtain ⟨s', hs'⟩ := htotal (by decide) 0 2 initial
  exact ⟨s', hs', hframe 0 2 initial s' hs' _ (Or.inr (Nat.le_refl _))⟩

/-! ## The row flip of the screenshot branch -/

theorem swapRanges_apply (pixels : Nat → Nat) (first1 first2 : Nat) :
    ∀ (count : Nat), first1 + count ≤ first2 → ∀ j,
      swapRanges pixels first1 first2 count j =
        if first1 ≤ j ∧ j < first1 + count then pixels (first2 + (j - first1))
        else if first2 ≤ j ∧ j < first2 + count then pixels (first1 + (j - first2))
        else pixels j := by
  intro count
  induction count with
  | zero =>
    intro _ j
    simp only [swapRanges]
    rw [if_neg (by omega), if_neg (by omega)]
  | succ n ih =>
    intro hle j
    have ih' := ih (by omega)
    simp only [swapRanges, ih']
    split_ifs <;> first | rfl | omega | (congr 1; omega)

theorem flipRows_succ (width height : Nat) (pixels : Nat → Nat) (i : Nat) :
    flipRows width height pixels (i + 1) =
      swapRanges (flipRows width height pixels i) (i * (width * 4))
        ((height - 1 - i) * (width * 4)) (width * 4) := by
  have h1 : width * i * 4 = i * (width * 4) := by ring
  have h2 : (height - 1 - i) * width * 4 = (height - 1 - i) * (width * 4) := Nat.mul_assoc _ _ _
  have h3 : width * (i + 1) * 4 - width * i * 4 = width * 4 := by
    have : width * (i + 1) * 4 = width * i * 4 + width * 4 := by ring
    omega
  simp only [flipRows]
  rw [h3, h1, h2]

theorem row_lt (L r i c : Nat) (hc : c < L) (hri : r < i) : r * L + c < i * L := by
  have h1 : (r + 1) * L ≤ i * L := Nat.mul_le_mul_right _ hri
  have h2 : (r + 1) * L = r * L + L := by ring
  omega

theorem flipRows_apply (width height : Nat) (pixels : Nat → Nat) :
    ∀ (n : Nat), n ≤ height / 2 → ∀ r c, r < height → c < width * 4 →
      flipRows width height pixels n (r * (width * 4) + c) =
        if r < n ∨ height - n ≤ r then pixels ((height - 1 - r) * (width * 4) + c)
        else pixels (r * (width * 4) + c) := by
  intro n
  induction n with
  | zero =>
    intro _ r c hr _
    simp only [flipRows]
    rw [if_neg (by omega)]
  | succ n ih =>
    intro hn r c hr hc
    have ih' := ih (by omega)
    have hlow : n < height - 1 - n := by omega
    have hdisj : n * (width * 4) + width * 4 ≤ (height - 1 - n) * (width * 4) := by
      have h1 : (n + 1) * (width * 4) ≤ (height - 1 - n) * (width * 4) :=
        Nat.mul_le_mul_right _ hlow
      have h2 : (n + 1) * (width * 4) = n * (width * 4) + width * 4 := by ring
      omega
    rw [flipRows_succ, swapRanges_apply _ _ _ _ hdisj]
    rcases Nat.lt_trichotomy r n with hlt | heq | hgt
    · have := row_lt (width * 4) r n c hc hlt
      rw [if_neg (by omega), if_neg (by omega), ih' r c hr hc, if_pos (Or.inl hlt),
        if_pos (Or.inl (by omega))]
    · subst heq
      rw [if_pos (by omega), if_pos (Or.inl (by omega))]
      have hidx : (height - 1 - r) * (width * 4) + (r * (width * 4) + c - r * (width * 4)) =
          (height - 1 - r) * (width * 4) + c := by omega
      rw [hidx, ih' (height - 1 - r) c (by omega) hc, if_neg (by omega)]
    · have hgt' : (n + 1) * (width * 4) ≤ r * (width * 4) := Nat.mul_le_mul_right _ hgt
      have h2 : (n + 1) * (width * 4) = n * (width * 4) + width * 4 := by ring
      rw [if_neg (by omega)]
      rcases Nat.lt_trichotomy r (height - 1 - n) with hlt2 | heq2 | hgt2
      · have := row_lt (width * 4) r (height - 1 - n) c hc hlt2
        rw [if_neg (by omega), ih' r c hr hc, if_neg (by omega), if_neg (by omega)]
      · subst heq2
        rw [if_pos (by omega), if_pos (Or.inr (by omega))]
        have hidx : n * (width * 4) +
            ((height - 1 - n) * (width * 4) + c - (height - 1 - n) * (width * 4)) =
            n * (width * 4) + c := by omega
        have hback : height - 1 - (height - 1 - n) = n := by omega
        rw [hidx, ih' n c (by omega) hc, if_neg (by omega), hback]
      · have hgt2' : (height - 1 - n + 1) * (width * 4) ≤ r * (width * 4) :=
          Nat.mul_le_mul_right _ hgt2
        have h3 : (height - 1 - n + 1) * (width * 4) =
            (height - 1 - n) * (width * 4) + width * 4 := by ring
        rw [if_neg (by omega), ih' r c hr hc, if_pos (Or.inr (by omega)),
          if_pos (Or.inr (by omega))]

theorem screenshot_flips (width height : Nat) (pixels : Nat → Nat) (r c : Nat)
    (hr : r < height) (hc : c < width * 4) :
    screenshot width height pixels (r * (width * 4) + c) =
      pixels ((height - 1 - r) * (width * 4) + c) := by
  rw [screenshot, flipRows_apply width height pixels (height / 2) (Nat.le_refl _) r c hr hc]
  by_cases h : r < height / 2 ∨ height - height / 2 ≤ r
  · rw [if_pos h]
  · rw [if_neg h]
    have : height - 1 - r = r := by omega
    rw [this]

/-- C5, refuted as stated: on a viewport of width 1 and height 2 where only the
pixel of row 0 is hit, byte 0 of row 0 of the buffer handed to the encoder is 255,
while byte 0 of row 2 - 1 - 0 of the buffer the workers left is 0. -/
theorem raytrace_flip_counterexample :
    (raytrace (rowWorld 1 2) triangleModel 1).map
        (fun r => (r.encoded (0 * (1 * 3) + 0), r.data ((2 - 1 - 0) * (1 * 3) + 0))) =
        some (255, 0) ∧
      (255 : Nat) ≠ 0 := by
  decide

/-- C5, as amended: `raytrace` hands the encoder the buffer exactly as the workers
left it, byte for byte, without any flip. The vertical flip belongs to the
screenshot branch of `keyCallback` only: there, on the buffer of 4 bytes per
pixel, row `r` of what is encoded is row `h - 1 - r` of what was read back. -/
theorem raytrace_encodes_workers_buffer (W : World Camera Ray) (model : Model) (q : Nat) :
    (∀ r, raytrace W model q = some r → ∀ j, r.encoded j = r.data j) ∧
    (∀ (pixels : Nat → Nat) (r c : Nat), r < W.height → c < W.width * 4 →
      screenshot W.width W.height pixels (r * (W.width * 4) + c) =
        pixels ((W.height - 1 - r) * (W.width * 4) + c)) :=
  ⟨fun _ _ _ => rfl, fun pixels r c hr hc => screenshot_flips W.width W.height pixels r c hr hc⟩

theorem raytrace_encodes_workers_buffer_witness :
    screenshot (rowWorld 2 3).width (rowWorld 2 3).height (fun j => j)
        (0 * ((rowWorld 2 3).width * 4) + 5) =
      ((rowWorld 2 3).height - 1 - 0) * ((rowWorld 2 3).width * 4) + 5 :=
  (raytrace_encodes_workers_buffer (rowWorld 2 3) triangleModel 1).2 (fun j => j) 0 5
    (by decide) (by decide)

/-- C8, at a triangle whose corners have x = 200000, 200001, 200000:
`boundingBox` returns min.x = 100000, the start value of the fold, while every
vertex has x at least 200000 and the first has exactly that. -/
theorem boundingBox_far_model :
    farModel.boundingBox.min.x = 100000 ∧
      (∀ m ∈ farModel.meshes, ∀ v ∈ m.vertices, 200000 ≤ v.position.x) ∧
      (∃ m ∈ farModel.meshes, ∃ v ∈ m.vertices, v.position.x = 200000) := by
  decide

/-- C9, at the indexed unit square and at a triangle with reversed winding. On
the square the triangle loop of `rt` reads `positions[4]` in its second pass, out
of bounds, while `modelToTriangles` yields the two triangles of the index sequence;
on the reversed triangle both stay in bounds, `rt` tests the corners in the order
0 1 2 and `modelToTriangles` yields them in the order 2 1 0. -/
theorem rt_scan_ignores_indices :
    scanMesh (rowWorld 1 2) (0, 1) Mat4.one quadMesh.positions
        ⟨CInt.zero, CInt.zero, CInt.zero⟩ = none ∧
    (modelToTriangles quadModel Mat4.one).map (List.map Triangle.positions) =
      some [(⟨0, 0, 0⟩, ⟨1, 0, 0⟩, ⟨1, 1, 0⟩), (⟨0, 0, 0⟩, ⟨1, 1, 0⟩, ⟨0, 1, 0⟩)] ∧
    (scanMesh (rowWorld 1 2) (0, 1) Mat4.one flippedTriangleMesh.positions
        ⟨CInt.zero, CInt.zero, CInt.zero⟩).map
        (fun r => (r.1.tests.val, r.1.intersections.val, r.2)) = some (1, 0, none) ∧
    triples Mat4.one flippedTriangleMesh.positions =
      [(⟨0, 0, 0⟩, ⟨1, 0, 0⟩, ⟨0, 1, 0⟩)] ∧
    (modelToTriangles flippedModel Mat4.one).map (List.map Triangle.positions) =
      some [(⟨0, 1, 0⟩, ⟨1, 0, 0⟩, ⟨0, 0, 0⟩)] := by
  refine ⟨by decide, ?_, by decide, ?_, ?_⟩
  · simp [modelToTriangles, meshesToTriangles, meshToTriangles, corner, quadModel, quadMesh,
      Triangle.positions, multiply, Mat4.mulVec, Mat4.one, Vec4.add, Vec4.scale]
  · simp [triples, flippedTriangleMesh, triangleMesh, multiply, Mat4.mulVec,
      Mat4.one, Vec4.add, Vec4.scale]
  · simp [modelToTriangles, meshesToTriangles, meshToTriangles, corner, flippedModel,
      flippedTriangleMesh, triangleMesh, Triangle.positions, multiply, Mat4.mulVec, Mat4.one,
      Vec4.add, Vec4.scale]

theorem transformations_translates (b : Bounding) (zOffset : ℚ) (v : Vec3) :
    multiply (transformations b zOffset) v =
      ⟨v.x - (b.getMax.x + b.getMin.x) / 2, v.y - (b.getMax.y + b.getMin.z) / 2,
        v.z - (b.getMax.y + b.getMin.z) / 2 - 3 - zOffset⟩ := by
  simp only [multiply, transformations, translate, rotate, Mat4.mulVec, Mat4.one, Vec4.add,
    Vec4.scale, Vec3.mk.injEq]
  refine ⟨?_, ?_, ?_⟩ <;> ring

/-- C10, at the cube of side 2 centred at (0, 2, 0) with `zOffset` 10:
`transformations()` moves the centre of the bounding box to (0, 1, -14), not to
(0, 0, -3 - 10). -/
theorem transformations_off_centre :
    multiply (transformations raisedCube 10) raisedCube.centre = ⟨0, 1, -14⟩ ∧
      raisedCube.centre = ⟨0, 2, 0⟩ ∧
      (⟨0, 1, -14⟩ : Vec3) ≠ ⟨0, 0, -3 - 10⟩ := by
  refine ⟨?_, ?_, ?_⟩
  · rw [transformations_translates]
    simp only [raisedCube, Bounding.centre, Vec3.mk.injEq]
    norm_num
  · simp only [raisedCube, Bounding.centre, Vec3.mk.injEq]
    norm_num
  · simp only [ne_eq, Vec3.mk.injEq]
    norm_num

end RT
